import Mathlib

/-!
Formal model of the semantic-similarity subsystem of a conversation-history
service: hybrid search ranking (`backend/app/api/search.py`), nearest-neighbor
similarity lookup (`backend/app/services/embedding_service.py`), and automatic
clustering of conversations (`backend/app/api/clusters.py`).

Similarity scores and cosine distances are modelled as rationals.  The vector
index (ChromaDB) and the relational store are external collaborators; they are
modelled as oracles (a query-response record and a membership predicate), and
their contractual guarantees (parallel result lists, distance-ascending order)
appear as hypotheses of the theorems.
-/

/-! ## Embedding service: query-result formatting

`EmbeddingService.search_conversations` / `search_messages` format each raw
index response entry as a dict with `similarity = 1 - distance` when the
response carries distances, and `similarity = None` otherwise.
-/

/-- A raw response of the vector index to a single query: parallel lists of
ids, documents and metadata, plus the optional distances list.  Mirrors the
per-query slice `results[...][0]` of a ChromaDB query. -/
structure ChromaQueryResp where
  ids : List String
  documents : List String
  metadatas : List (List (String × String))
  distances : Option (List ℚ)
deriving DecidableEq

/-- A `SimilarityResult` as produced by the formatting loops of
`EmbeddingService.search_conversations` and `search_messages`:
`{id, document, metadata, similarity}` where `similarity` is absent when the
index returned no distances. -/
structure SimilarityResult where
  id : String
  document : String
  metadata : List (String × String)
  similarity : Option ℚ
deriving DecidableEq

/-- Result-formatting loop of `EmbeddingService.search_conversations` (and,
identically, `search_messages`): entry `i` gets
`similarity = 1 - distances[i]` when distances are present, else no score.
In the source the parallel lists are indexed by the same `i`; out-of-range
access (impossible under the index contract) is modelled with defaults. -/
def formatQueryResults (resp : ChromaQueryResp) : List SimilarityResult :=
  (List.range resp.ids.length).map fun i =>
    { id := resp.ids.getD i ""
      document := resp.documents.getD i ""
      metadata := resp.metadatas.getD i []
      similarity := match resp.distances with
        | some ds => some (1 - ds.getD i 0)
        | none => none }

/-! ## find_similar_conversations -/

/-- The similarity the source computes for index `i` of a response inside
`find_similar_conversations`: `1 - distances[i]` when distances are present,
else the literal `0`. -/
def responseSimilarity (resp : ChromaQueryResp) (i : Nat) : ℚ :=
  match resp.distances with
  | some ds => 1 - ds.getD i 0
  | none => 0

/-- An entry of the `find_similar_conversations` output; unlike search
results its similarity is always a number (`0` stands in when the index
returned no distances). -/
structure SimilarEntry where
  id : String
  document : String
  metadata : List (String × String)
  similarity : ℚ
deriving DecidableEq

/-- The filtering loop of `find_similar_conversations`: walk the response ids
with their indices, drop the queried conversation itself, compute the
similarity for the remaining entries and keep those at or above `threshold`. -/
def filterSimilar (conversation_id : String) (threshold : ℚ)
    (resp : ChromaQueryResp) : Nat → List String → List SimilarEntry
  | _, [] => []
  | i, conv_id :: rest =>
    let tail := filterSimilar conversation_id threshold resp (i + 1) rest
    if conv_id = conversation_id then tail
    else
      let similarity := responseSimilarity resp i
      if threshold ≤ similarity then
        { id := conv_id
          document := resp.documents.getD i ""
          metadata := resp.metadatas.getD i []
          similarity := similarity } :: tail
      else tail

/-- The conversation collection of the vector index, as the two operations
`find_similar_conversations` consumes: fetch a stored embedding by id
(`collection.get`, `None` when the entity has no stored vector) and run a
nearest-neighbor query (`collection.query` with `n_results`). -/
structure ChromaCollection where
  getEmbedding : String → Option (List ℚ)
  query : List ℚ → Nat → ChromaQueryResp

/-- `EmbeddingService.find_similar_conversations`: look up the entity's own
stored vector (returning `[]` when absent), query the index with `limit + 1`
neighbors, filter out the entity itself and entries below `threshold`, and
return at most `limit` entries. -/
def find_similar_conversations (coll : ChromaCollection) (conversation_id : String)
    (limit : Nat) (threshold : ℚ) : List SimilarEntry :=
  match coll.getEmbedding conversation_id with
  | none => []
  | some embedding =>
    let results := coll.query embedding (limit + 1)
    (filterSimilar conversation_id threshold results 0 results.ids).take limit

/-! ## Stable descending sort

`results.sort(key=lambda x: x.similarity or 0, reverse=True)` is a stable sort
by the (defaulted) similarity key in descending order.  We model it by stable
insertion: each element is inserted after all already-placed elements whose key
is at least its own, which yields the same list as any stable descending sort.
-/

/-- Insert `x` into a descending-sorted list, after every element whose key is
greater than or equal to `key x` (stability: earlier elements with equal keys
stay in front). -/
def insertDesc (key : α → ℚ) (x : α) : List α → List α
  | [] => [x]
  | y :: ys => if key x ≤ key y then y :: insertDesc key x ys else x :: y :: ys

/-- Stable sort in descending key order, processing the list left to right. -/
def sortByKeyDesc (key : α → ℚ) (l : List α) : List α :=
  l.foldl (fun acc x => insertDesc key x acc) []

theorem insertDesc_perm (key : α → ℚ) (x : α) :
    ∀ l : List α, List.Perm (insertDesc key x l) (x :: l)
  | [] => List.Perm.refl _
  | y :: ys => by
    unfold insertDesc
    split
    · exact ((insertDesc_perm key x ys).cons y).trans (List.Perm.swap x y ys)
    · exact List.Perm.refl _

theorem mem_insertDesc {key : α → ℚ} {x z : α} {l : List α} :
    z ∈ insertDesc key x l ↔ z = x ∨ z ∈ l := by
  rw [(insertDesc_perm key x l).mem_iff, List.mem_cons]

theorem sortByKeyDesc_aux_perm (key : α → ℚ) :
    ∀ (l acc : List α), List.Perm (l.foldl (fun acc x => insertDesc key x acc) acc) (acc ++ l)
  | [], acc => by simp
  | x :: l, acc => by
    have h1 := sortByKeyDesc_aux_perm key l (insertDesc key x acc)
    have h2 : List.Perm (insertDesc key x acc ++ l) ((x :: acc) ++ l) :=
      (insertDesc_perm key x acc).append_right l
    exact (h1.trans h2).trans List.perm_middle.symm

theorem sortByKeyDesc_perm (key : α → ℚ) (l : List α) :
    List.Perm (sortByKeyDesc key l) l := by
  simpa [sortByKeyDesc] using sortByKeyDesc_aux_perm key l []

theorem insertDesc_pairwise {key : α → ℚ} {x : α} {l : List α}
    (h : l.Pairwise fun a b => key b ≤ key a) :
    (insertDesc key x l).Pairwise fun a b => key b ≤ key a := by
  induction l with
  | nil => simp [insertDesc]
  | cons y ys ih =>
    rw [List.pairwise_cons] at h
    unfold insertDesc
    split
    · rename_i hxy
      rw [List.pairwise_cons]
      refine ⟨fun z hz => ?_, ih h.2⟩
      rcases mem_insertDesc.mp hz with hz | hz
      · exact hz ▸ hxy
      · exact h.1 z hz
    · rename_i hxy
      rw [List.pairwise_cons]
      refine ⟨fun z hz => ?_, List.pairwise_cons.mpr h⟩
      rcases List.mem_cons.mp hz with hz | hz
      · exact hz ▸ le_of_lt (lt_of_not_le hxy)
      · exact (h.1 z hz).trans (le_of_lt (lt_of_not_le hxy))

theorem sortByKeyDesc_aux_pairwise (key : α → ℚ) :
    ∀ (l acc : List α), (acc.Pairwise fun a b => key b ≤ key a) →
      (l.foldl (fun acc x => insertDesc key x acc) acc).Pairwise
        fun a b => key b ≤ key a
  | [], _, h => h
  | _ :: l, _, h => sortByKeyDesc_aux_pairwise key l _ (insertDesc_pairwise h)

theorem sortByKeyDesc_pairwise (key : α → ℚ) (l : List α) :
    (sortByKeyDesc key l).Pairwise fun a b => key b ≤ key a :=
  sortByKeyDesc_aux_pairwise key l [] List.Pairwise.nil

/-! ## API layer: search_conversations / search_messages / hybrid_search

The relational store is modelled as a membership predicate (does a row with a
given id exist) and the text pass as the ordered list of ids its query returns
before the SQL-side LIMIT.  `ConversationSummary.model_validate` leaves
`similarity` at its default `None`; the semantic loop then assigns the score
taken from the index result.
-/

/-- The fields of a `ConversationSummary` the search pipeline manipulates:
its id and the similarity attached by the semantic pass (absent on summaries
coming from the text pass). -/
structure ConversationSummary where
  id : String
  similarity : Option ℚ
deriving DecidableEq

/-- The fields of a `MessageWithSimilarity` the search pipeline manipulates. -/
structure MessageWithSimilarity where
  id : String
  similarity : Option ℚ
deriving DecidableEq

/-- The three values of `SearchQuery.search_type`. -/
inductive SearchType
  | text
  | semantic
  | hybrid
deriving DecidableEq

/-- The ranking key of `results.sort(key=lambda x: x.similarity or 0,
reverse=True)`: a missing similarity counts as `0` (and a present `0.0` is
also replaced by `0`, the same value). -/
def sortKey (x : ConversationSummary) : ℚ := x.similarity.getD 0

/-- Ranking key for the message variant of the same sort. -/
def msgSortKey (x : MessageWithSimilarity) : ℚ := x.similarity.getD 0

/-- `search_conversations` (`POST /search/conversations`).  `semantic_results`
is the formatted output of the embedding-service semantic pass (requested with
`n_results = limit`), `db` tells which ids have a conversation row, and
`text_matches` lists the ids the text query matches, most recent first, before
its SQL LIMIT of `limit` rows.  Semantic results found in the store come
first, each with its similarity; in hybrid mode text matches whose id is not
among them are appended with no score; the merged list is stable-sorted by
descending defaulted similarity and truncated to `limit`. -/
def search_conversations (search_type : SearchType) (limit : Nat)
    (semantic_results : List SimilarityResult) (db : String → Bool)
    (text_matches : List String) : List ConversationSummary :=
  let results1 : List ConversationSummary :=
    if search_type = .semantic ∨ search_type = .hybrid then
      semantic_results.filterMap fun r =>
        if db r.id then some { id := r.id, similarity := r.similarity } else none
    else []
  let text_results : List ConversationSummary :=
    (text_matches.take limit).map fun t => { id := t, similarity := none }
  let results2 : List ConversationSummary :=
    if search_type = .text ∨ search_type = .hybrid then
      if search_type = .hybrid then
        results1 ++ text_results.filter
          fun c => decide (c.id ∉ results1.map ConversationSummary.id)
      else text_results
    else results1
  (sortByKeyDesc sortKey results2).take limit

/-- `search_messages` (`POST /search/messages`); identical merge, sort and
truncation logic over message rows (its semantic pass is requested with
`n_results = limit * 2`, which only affects how many semantic results the
oracle may return). -/
def search_messages (search_type : SearchType) (limit : Nat)
    (semantic_results : List SimilarityResult) (db : String → Bool)
    (text_matches : List String) : List MessageWithSimilarity :=
  let results1 : List MessageWithSimilarity :=
    if search_type = .semantic ∨ search_type = .hybrid then
      semantic_results.filterMap fun r =>
        if db r.id then some { id := r.id, similarity := r.similarity } else none
    else []
  let text_results : List MessageWithSimilarity :=
    (text_matches.take limit).map fun t => { id := t, similarity := none }
  let results2 : List MessageWithSimilarity :=
    if search_type = .text ∨ search_type = .hybrid then
      if search_type = .hybrid then
        results1 ++ text_results.filter
          fun c => decide (c.id ∉ results1.map MessageWithSimilarity.id)
      else text_results
    else results1
  (sortByKeyDesc msgSortKey results2).take limit

/-- The body of `HybridSearchResult`: the two result lists of the combined
endpoint. -/
structure HybridSearchOut where
  conversations : List ConversationSummary
  messages : List MessageWithSimilarity
deriving DecidableEq

/-- `hybrid_search` (`POST /search/hybrid`): search conversations with limit
`max(5, limit // 2)`, then messages with limit `max(5, limit - number of
conversation results)` (the subtraction may be negative, hence the integer
max), and return both lists. -/
def hybrid_search (limit : Nat)
    (conv_semantic : List SimilarityResult) (conv_db : String → Bool)
    (conv_text : List String)
    (msg_semantic : List SimilarityResult) (msg_db : String → Bool)
    (msg_text : List String) : HybridSearchOut :=
  let conv_limit := max 5 (limit / 2)
  let conv_results := search_conversations .hybrid conv_limit conv_semantic conv_db conv_text
  let msg_limit : Int := (limit : Int) - conv_results.length
  let msg_results := search_messages .hybrid (max 5 msg_limit).toNat msg_semantic msg_db msg_text
  { conversations := conv_results, messages := msg_results }

/-! ## Clustering engine

String manipulation is modelled over `List Char` so every operation is an
explicit structural recursion: Python's substring test (`kw in text`),
`str.split('/')`, `str.lower()` and `str.title()`.
-/

/-- Whether `p` is an initial run of `s` (helper for the substring test). -/
def charsStartWith : List Char → List Char → Bool
  | [], _ => true
  | _ :: _, [] => false
  | p :: ps, c :: cs => p = c && charsStartWith ps cs

/-- Python's `pat in s` over character lists: `pat` occurs contiguously in
`s` (the empty pattern always occurs). -/
def charsContain (pat : List Char) : List Char → Bool
  | [] => charsStartWith pat []
  | c :: rest => charsStartWith pat (c :: rest) || charsContain pat rest

/-- Python's `s.split('/')` over character lists: `""` splits to `[""]`. -/
def splitSlash : List Char → List (List Char)
  | [] => [[]]
  | c :: rest =>
    let r := splitSlash rest
    if c = '/' then [] :: r
    else
      match r with
      | [] => [[c]]
      | seg :: segs => (c :: seg) :: segs

/-- Python's `s.lower()` (ASCII as used by the keyword vocabulary). -/
def pyLower (s : String) : String := String.mk (s.data.map Char.toLower)

/-- One step of Python's `s.title()`: a letter starting a letter run is
uppercased, later letters of the run are lowercased, other characters are
kept; the boolean carries whether the previous character was a letter. -/
def titleChars : List Char → Bool → List Char
  | [], _ => []
  | c :: rest, prevAlpha =>
    (if c.isAlpha then (if prevAlpha then c.toLower else c.toUpper) else c)
      :: titleChars rest c.isAlpha

/-- Python's `s.title()`. -/
def pyTitle (s : String) : String := String.mk (titleChars s.data false)

/-- Python's `pat in s` on strings. -/
def strContains (s pat : String) : Bool := charsContain pat.data s.data

/-- The conversation-row fields `_generate_cluster_info` and
`_perform_auto_clustering` read. -/
structure Conversation where
  id : String
  title : Option String
  summary : Option String
  project_path : Option String
deriving DecidableEq

/-- The fixed keyword vocabulary scanned by `_generate_cluster_info`. -/
def clusterKeywords : List String :=
  ["react", "python", "javascript", "api", "database", "frontend", "backend",
   "bug", "feature", "testing", "deployment", "authentication", "security",
   "performance", "ui", "ux", "design", "mobile", "web", "data",
   "machine learning"]

/-- `_generate_cluster_info`: name and description of a cluster from its
member rows.  Keywords matching the lowercased concatenation of titles and
summaries win (first three, comma-joined, title-cased); otherwise, when some
member has a project path, the segments of the first such path occurring as
substrings in every project path are collected, and the name is the last two
of them joined with `/` when there are at least two, else the literal
`"Project Discussions"`; with no project paths at all the name is
`"Mixed Topics"`.  The one indexed access (`projects[0]`) is modelled
fallibly via `Option`; totality is a theorem. -/
def generate_cluster_info (conversations : List Conversation) :
    Option (String × String) :=
  let titles := conversations.filterMap Conversation.title
  let summaries := conversations.filterMap Conversation.summary
  let all_text := pyLower (String.intercalate " " (titles ++ summaries))
  let found_keywords := clusterKeywords.filter fun kw => strContains all_text kw
  let nameO : Option String :=
    if found_keywords ≠ [] then
      some (pyTitle (String.intercalate ", " (found_keywords.take 3)))
    else
      let projects := conversations.filterMap Conversation.project_path
      if projects ≠ [] then
        match projects.head? with
        | none => none
        | some p0 =>
          let first_segments := splitSlash p0.data
          let common_segments := first_segments.filter
            fun seg => projects.all fun proj => charsContain seg proj.data
          some (if 2 ≤ common_segments.length then
              String.mk (List.intercalate ['/']
                (common_segments.drop (common_segments.length - 2)))
            else "Project Discussions")
      else some "Mixed Topics"
  nameO.map fun name =>
    let description := "Automatically generated cluster containing "
      ++ toString conversations.length ++ " related conversations"
    let description := if found_keywords ≠ [] then
        description ++ " focused on "
          ++ String.intercalate ", " (found_keywords.take 5)
      else description
    (name, description)

/-- The fixed 10-color palette of `_generate_cluster_color`. -/
def clusterColors : List String :=
  ["#6366f1", "#8b5cf6", "#06b6d4", "#10b981", "#f59e0b",
   "#ef4444", "#f97316", "#84cc16", "#ec4899", "#6b7280"]

/-- `_generate_cluster_color`: palette entry `index mod 10`. -/
def generate_cluster_color (index : Nat) : String :=
  clusterColors.getD (index % clusterColors.length) ""

/-! ## Database session model

The SQLAlchemy session is modelled as a committed store plus a staging area:
`add` stages a write, `flush` leaves committed state untouched, `commit`
appends all staged writes to the store and counts, `rollback` discards the
staging area. -/

/-- A `ConversationCluster` row as written by the auto-clustering run. -/
structure ClusterRow where
  name : String
  description : String
  auto_generated : Bool
  color : String
deriving DecidableEq

/-- A `ConversationClusterMember` row; `cluster_id` is the creation index of
the owning cluster within the run (the flush-assigned key). -/
structure MemberRow where
  conversation_id : String
  cluster_id : Nat
  confidence_score : ℚ
deriving DecidableEq

/-- A staged write of the run. -/
inductive DbWrite
  | cluster (c : ClusterRow)
  | member (m : MemberRow)
deriving DecidableEq

/-- The session state: committed writes, staged writes, and how many commits
have run. -/
structure DbState where
  committed : List DbWrite
  staged : List DbWrite
  commit_count : Nat
deriving DecidableEq

/-- `db.add`: stage a write. -/
def DbState.add (db : DbState) (w : DbWrite) : DbState :=
  { db with staged := db.staged ++ [w] }

/-- `db.commit`: persist every staged write. -/
def DbState.commit (db : DbState) : DbState :=
  { committed := db.committed ++ db.staged
    staged := []
    commit_count := db.commit_count + 1 }

/-- `db.rollback`: discard every staged write. -/
def DbState.rollback (db : DbState) : DbState :=
  { db with staged := [] }

/-- `np.where(cluster_labels == label)[0]`: the indices carrying `label`, in
increasing order. -/
def cluster_member_indices (labels : List Int) (label : Int) : List Nat :=
  (List.range labels.length).filter fun i => labels.getD i 0 = label

/-- The per-label loop of `_perform_auto_clustering`: walk the deduplicated
labels, stop once `max_clusters` clusters exist, skip labels with fewer than
`min_cluster_size` members, and otherwise stage one cluster row (named and
colored by creation index) plus one member row per member conversation, all
sharing the confidence score taken from `probabilities[first member index]`
when the clusterer exposes probabilities and the fixed `0.8` otherwise.
Returns the staged writes in order together with the final
`(clusters_created, conversations_clustered)` counters. -/
def clusterLoop (conversations : List Conversation) (labels : List Int)
    (probabilities : Option (List ℚ)) (min_cluster_size max_clusters : Nat) :
    List Int → Nat → Nat → List DbWrite × Nat × Nat
  | [], cc, cl => ([], cc, cl)
  | label :: rest, cc, cl =>
    if max_clusters ≤ cc then ([], cc, cl)
    else
      let idxs := cluster_member_indices labels label
      let cluster_conversations :=
        idxs.map fun i => conversations.getD i ⟨"", none, none, none⟩
      if cluster_conversations.length < min_cluster_size then
        clusterLoop conversations labels probabilities min_cluster_size
          max_clusters rest cc cl
      else
        let info := (generate_cluster_info cluster_conversations).getD ("", "")
        let cluster : ClusterRow :=
          { name := "Auto-Cluster " ++ toString (cc + 1) ++ ": " ++ info.1
            description := info.2
            auto_generated := true
            color := generate_cluster_color cc }
        let confidence : ℚ := match probabilities with
          | some ps => ps.getD (idxs.getD 0 0) 0
          | none => 4 / 5
        let memberWrites := cluster_conversations.map fun conv =>
          DbWrite.member
            { conversation_id := conv.id
              cluster_id := cc
              confidence_score := confidence }
        let next := clusterLoop conversations labels probabilities
          min_cluster_size max_clusters rest (cc + 1)
          (cl + cluster_conversations.length)
        (DbWrite.cluster cluster :: memberWrites ++ next.1, next.2)

/-- The result dictionary of `_perform_auto_clustering`; `message` is the
explanatory status only present on the insufficient-data early return
(report-only fields such as the clustering percentage are omitted). -/
structure ClusteringResult where
  clusters_created : Nat
  conversations_clustered : Nat
  message : Option String
deriving DecidableEq

/-- `_perform_auto_clustering`.  External effects are oracles: the candidate
conversations, the outcome of the similarity-matrix fetch, the HDBSCAN labels
for the candidates (noise is `-1`; the similarity threshold only parametrizes
the clusterer), its optional per-point probabilities, and whether the final
commit succeeds.  Fewer candidates than `min_cluster_size` returns the
zero-result with a message and touches nothing; a failed matrix fetch or a
failed commit rolls the session back and surfaces the error; otherwise the
staged cluster and member writes are committed once.  Python iterates
`set(labels) - {-1}` in unspecified order; first-occurrence order is used
here. -/
def perform_auto_clustering (db : DbState) (conversations : List Conversation)
    (similarity_fetch : Except String Unit) (labels : List Int)
    (probabilities : Option (List ℚ)) (commit_ok : Bool)
    (min_cluster_size max_clusters : Nat) :
    Except String ClusteringResult × DbState :=
  if conversations.length < min_cluster_size then
    (.ok { clusters_created := 0, conversations_clustered := 0
           message := some "Not enough conversations for clustering" }, db)
  else
    match similarity_fetch with
    | .error e => (.error e, db.rollback)
    | .ok _ =>
      let unique_labels := labels.eraseDups.filter fun label => label ≠ -1
      let run := clusterLoop conversations labels probabilities
        min_cluster_size max_clusters unique_labels 0 0
      let db1 := run.1.foldl DbState.add db
      if commit_ok then
        (.ok { clusters_created := run.2.1, conversations_clustered := run.2.2
               message := none }, db1.commit)
      else (.error "commit failed", db1.rollback)

/-! ## Theorems -/

theorem filterSimilar_forall (conversation_id : String) (threshold : ℚ)
    (resp : ChromaQueryResp) (l : List String) :
    ∀ (i : Nat), ∀ r ∈ filterSimilar conversation_id threshold resp i l,
      r.id ≠ conversation_id ∧ threshold ≤ r.similarity ∧
        ∃ k, i ≤ k ∧ k < i + l.length ∧
          r.similarity = responseSimilarity resp k := by
  induction l with
  | nil => intro i r hr; simp [filterSimilar] at hr
  | cons conv_id rest ih =>
    intro i r hr
    simp only [filterSimilar] at hr
    by_cases hc : conv_id = conversation_id
    · rw [if_pos hc] at hr
      obtain ⟨h1, h2, k, hk1, hk2, hk3⟩ := ih (i + 1) r hr
      exact ⟨h1, h2, k, by omega, by simp only [List.length_cons]; omega, hk3⟩
    · rw [if_neg hc] at hr
      by_cases ht : threshold ≤ responseSimilarity resp i
      · rw [if_pos ht, List.mem_cons] at hr
        rcases hr with hr | hr
        · subst hr
          exact ⟨hc, ht, i, le_refl i, by simp only [List.length_cons]; omega, rfl⟩
        · obtain ⟨h1, h2, k, hk1, hk2, hk3⟩ := ih (i + 1) r hr
          exact ⟨h1, h2, k, by omega, by simp only [List.length_cons]; omega, hk3⟩
      · rw [if_neg ht] at hr
        obtain ⟨h1, h2, k, hk1, hk2, hk3⟩ := ih (i + 1) r hr
        exact ⟨h1, h2, k, by omega, by simp only [List.length_cons]; omega, hk3⟩

theorem filterSimilar_pairwise (conversation_id : String) (threshold : ℚ)
    (resp : ChromaQueryResp) (l : List String) :
    ∀ i : Nat,
      (∀ a b, i ≤ a → a ≤ b → b < i + l.length →
        responseSimilarity resp b ≤ responseSimilarity resp a) →
      (filterSimilar conversation_id threshold resp i l).Pairwise
        fun x y => y.similarity ≤ x.similarity := by
  induction l with
  | nil => intro i _; simp [filterSimilar]
  | cons conv_id rest ih =>
    intro i hmono
    have hmono2 : ∀ a b, i + 1 ≤ a → a ≤ b → b < (i + 1) + rest.length →
        responseSimilarity resp b ≤ responseSimilarity resp a := by
      intro a b ha hab hb
      exact hmono a b (by omega) hab (by simp only [List.length_cons]; omega)
    simp only [filterSimilar]
    by_cases hc : conv_id = conversation_id
    · rw [if_pos hc]; exact ih (i + 1) hmono2
    · rw [if_neg hc]
      by_cases ht : threshold ≤ responseSimilarity resp i
      · rw [if_pos ht, List.pairwise_cons]
        refine ⟨fun z hz => ?_, ih (i + 1) hmono2⟩
        obtain ⟨_, _, k, hk1, hk2, hk3⟩ :=
          filterSimilar_forall conversation_id threshold resp rest (i + 1) z hz
        show z.similarity ≤ responseSimilarity resp i
        rw [hk3]
        exact hmono i k (le_refl i) (by omega)
          (by simp only [List.length_cons]; omega)
      · rw [if_neg ht]; exact ih (i + 1) hmono2

/-- C2: for every conversation with a stored embedding,
`find_similar_conversations(id, limit, threshold)` never contains the
conversation itself, never contains an entry with similarity below
`threshold`, and returns at most `limit` entries in similarity-descending
order.  The index contract supplies the hypotheses: when the response carries
distances they are sorted ascending and cover all returned ids. -/
theorem find_similar_spec (coll : ChromaCollection) (conversation_id : String)
    (limit : Nat) (threshold : ℚ) (embedding : List ℚ)
    (h_emb : coll.getEmbedding conversation_id = some embedding)
    (h_resp : ∀ ds, (coll.query embedding (limit + 1)).distances = some ds →
      ds.Pairwise (· ≤ ·) ∧
        (coll.query embedding (limit + 1)).ids.length ≤ ds.length) :
    (∀ r ∈ find_similar_conversations coll conversation_id limit threshold,
        r.id ≠ conversation_id) ∧
    (∀ r ∈ find_similar_conversations coll conversation_id limit threshold,
        threshold ≤ r.similarity) ∧
    (find_similar_conversations coll conversation_id limit threshold).length
        ≤ limit ∧
    (find_similar_conversations coll conversation_id limit threshold).Pairwise
        fun x y => y.similarity ≤ x.similarity := by
  have heq : find_similar_conversations coll conversation_id limit threshold =
      (filterSimilar conversation_id threshold
        (coll.query embedding (limit + 1)) 0
        (coll.query embedding (limit + 1)).ids).take limit := by
    unfold find_similar_conversations
    rw [h_emb]
  have hmono : ∀ a b, 0 ≤ a → a ≤ b →
      b < 0 + (coll.query embedding (limit + 1)).ids.length →
      responseSimilarity (coll.query embedding (limit + 1)) b ≤
        responseSimilarity (coll.query embedding (limit + 1)) a := by
    intro a b _ hab hb
    unfold responseSimilarity
    cases hds : (coll.query embedding (limit + 1)).distances with
    | none =>
      show (0 : ℚ) ≤ 0
      exact le_refl 0
    | some ds =>
      obtain ⟨hsorted, hlen⟩ := h_resp ds hds
      have ha2 : a < ds.length := by omega
      have hb2 : b < ds.length := by omega
      have hle : ds.getD a 0 ≤ ds.getD b 0 := by
        rw [List.getD_eq_getElem ds 0 ha2, List.getD_eq_getElem ds 0 hb2]
        rcases eq_or_lt_of_le hab with h | h
        · subst h; exact le_refl _
        · exact List.pairwise_iff_get.mp hsorted ⟨a, ha2⟩ ⟨b, hb2⟩ h
      show 1 - ds.getD b 0 ≤ 1 - ds.getD a 0
      linarith
  refine ⟨?_, ?_, ?_, ?_⟩
  · intro r hr
    rw [heq] at hr
    exact (filterSimilar_forall conversation_id threshold _ _ 0 r
      (List.take_subset _ _ hr)).1
  · intro r hr
    rw [heq] at hr
    exact (filterSimilar_forall conversation_id threshold _ _ 0 r
      (List.take_subset _ _ hr)).2.1
  · rw [heq, List.length_take]
    exact min_le_left _ _
  · rw [heq]
    exact (filterSimilar_pairwise conversation_id threshold _ _ 0 hmono).sublist
      (List.take_sublist _ _)

/-- Concrete collection used to witness the `find_similar` theorems: one
stored embedding for `"c"` and a constant query response listing `"c"`
(distance `0`) and `"d"` (distance `1/4`). -/
def witnessColl : ChromaCollection :=
  { getEmbedding := fun s => if s = "c" then some [1] else none
    query := fun _ _ =>
      { ids := ["c", "d"]
        documents := ["doc c", "doc d"]
        metadatas := [[], []]
        distances := some [0, 1] } }

theorem find_similar_spec_witness :
    (∀ r ∈ find_similar_conversations witnessColl "c" 1 0,
        r.id ≠ "c") ∧
    (∀ r ∈ find_similar_conversations witnessColl "c" 1 0,
        (0 : ℚ) ≤ r.similarity) ∧
    (find_similar_conversations witnessColl "c" 1 0).length ≤ 1 ∧
    (find_similar_conversations witnessColl "c" 1 0).Pairwise
        fun x y => y.similarity ≤ x.similarity :=
  find_similar_spec witnessColl "c" 1 0 [1] rfl
    (by intro ds hds; injection hds with h; subst h; exact ⟨by decide, by decide⟩)

/-- C9: similarity lookup on an entity with no stored embedding returns the
empty list (a normal value, not an error). -/
theorem find_similar_no_embedding (coll : ChromaCollection)
    (conversation_id : String) (limit : Nat) (threshold : ℚ)
    (h : coll.getEmbedding conversation_id = none) :
    find_similar_conversations coll conversation_id limit threshold = [] := by
  unfold find_similar_conversations
  rw [h]

theorem find_similar_no_embedding_witness :
    find_similar_conversations witnessColl "absent" 5 (7 / 10) = [] :=
  find_similar_no_embedding witnessColl "absent" 5 (7 / 10) rfl

/-- C6: an auto-clustering run over fewer candidates than `min_cluster_size`
returns `{clusters_created: 0, conversations_clustered: 0}` with an
explanatory status, is not an error, and leaves the session untouched (no
cluster or assignment writes, no commit). -/
theorem auto_cluster_insufficient (db : DbState)
    (conversations : List Conversation) (similarity_fetch : Except String Unit)
    (labels : List Int) (probabilities : Option (List ℚ)) (commit_ok : Bool)
    (min_cluster_size max_clusters : Nat)
    (h : conversations.length < min_cluster_size) :
    perform_auto_clustering db conversations similarity_fetch labels
        probabilities commit_ok min_cluster_size max_clusters
      = (.ok { clusters_created := 0, conversations_clustered := 0
               message := some "Not enough conversations for clustering" },
         db) := by
  unfold perform_auto_clustering
  rw [if_pos h]

theorem auto_cluster_insufficient_witness :
    perform_auto_clustering ⟨[], [], 0⟩
        [⟨"c1", none, none, none⟩, ⟨"c2", none, none, none⟩]
        (.ok ()) [0, 0] none true 3 20
      = (.ok { clusters_created := 0, conversations_clustered := 0
               message := some "Not enough conversations for clustering" },
         ⟨[], [], 0⟩) :=
  auto_cluster_insufficient ⟨[], [], 0⟩
    [⟨"c1", none, none, none⟩, ⟨"c2", none, none, none⟩]
    (.ok ()) [0, 0] none true 3 20 (by decide)

theorem distance_entry_bounds {resp : ChromaQueryResp} {ds : List ℚ}
    (h : ∀ ds2, resp.distances = some ds2 → ∀ d ∈ ds2, 0 ≤ d ∧ d ≤ 2)
    (hds : resp.distances = some ds) (i : Nat) :
    -1 ≤ 1 - ds.getD i 0 ∧ 1 - ds.getD i 0 ≤ 1 := by
  by_cases hi : i < ds.length
  · have hmem : ds.getD i 0 ∈ ds := by
      rw [List.getD_eq_getElem ds 0 hi]
      exact List.getElem_mem hi
    have hd := h ds hds _ hmem
    constructor <;> linarith [hd.1, hd.2]
  · rw [List.getD_eq_default ds 0 (by omega)]
    norm_num

theorem responseSimilarity_bounds (resp : ChromaQueryResp)
    (h : ∀ ds, resp.distances = some ds → ∀ d ∈ ds, 0 ≤ d ∧ d ≤ 2) (i : Nat) :
    -1 ≤ responseSimilarity resp i ∧ responseSimilarity resp i ≤ 1 := by
  unfold responseSimilarity
  cases hds : resp.distances with
  | none => exact ⟨by norm_num, by norm_num⟩
  | some ds => exact distance_entry_bounds h hds i

/-- C5 counterexample: a `SimilarityResult` produced by the semantic search
formatter can carry a similarity outside `[0,1]`.  With a (legitimate) cosine
distance of `2` the emitted score is `1 - 2 = -1 < 0`: the underlying cosine
value is not clipped or mapped into `[0,1]`. -/
theorem similarity_range_counterexample :
    formatQueryResults
        { ids := ["a"], documents := ["doc"], metadatas := [[]]
          distances := some [2] }
      = [{ id := "a", document := "doc", metadata := [], similarity := some (-1) }]
    ∧ (-1 : ℚ) < 0 := by
  refine ⟨?_, by norm_num⟩
  have h2 : (1 : ℚ) - 2 = -1 := by norm_num
  simp [formatQueryResults, List.range_succ, h2]

/-- C5 (amended): every similarity score produced by the semantic search
formatter or by `find_similar_conversations` equals `1 - cosine distance` (or
the fallback `0`), hence lies in `[-1, 1]` whenever the index reports cosine
distances in `[0, 2]`; no clipping into `[0, 1]` is performed. -/
theorem similarity_bounds (resp : ChromaQueryResp)
    (h : ∀ ds, resp.distances = some ds → ∀ d ∈ ds, 0 ≤ d ∧ d ≤ 2) :
    (∀ r ∈ formatQueryResults resp, ∀ s, r.similarity = some s →
        -1 ≤ s ∧ s ≤ 1)
    ∧ (∀ conversation_id threshold i l,
        ∀ r ∈ filterSimilar conversation_id threshold resp i l,
          -1 ≤ r.similarity ∧ r.similarity ≤ 1)
    ∧ (∀ coll : ChromaCollection, ∀ conversation_id limit threshold embedding,
        coll.getEmbedding conversation_id = some embedding →
        coll.query embedding (limit + 1) = resp →
        ∀ r ∈ find_similar_conversations coll conversation_id limit threshold,
          -1 ≤ r.similarity ∧ r.similarity ≤ 1) := by
  have hfilter : ∀ conversation_id threshold i l,
      ∀ r ∈ filterSimilar conversation_id threshold resp i l,
        -1 ≤ r.similarity ∧ r.similarity ≤ 1 := by
    intro conversation_id threshold i l r hr
    obtain ⟨_, _, k, _, _, hk⟩ :=
      filterSimilar_forall conversation_id threshold resp l i r hr
    rw [hk]
    exact responseSimilarity_bounds resp h k
  refine ⟨?_, hfilter, ?_⟩
  · intro r hr s hs
    obtain ⟨i, _, rfl⟩ := List.mem_map.mp hr
    cases hds : resp.distances with
    | none => simp [hds] at hs
    | some ds =>
      rw [hds] at hs
      simp only [Option.some.injEq] at hs
      rw [← hs]
      exact distance_entry_bounds h hds i
  · intro coll conversation_id limit threshold embedding h_emb h_query r hr
    unfold find_similar_conversations at hr
    rw [h_emb] at hr
    simp only [h_query] at hr
    exact hfilter conversation_id threshold 0 resp.ids r (List.take_subset _ _ hr)

theorem similarity_bounds_witness :
    -1 ≤ (1 : ℚ) - 2 ∧ (1 : ℚ) - 2 ≤ 1 :=
  (similarity_bounds
      { ids := ["a"], documents := ["doc"], metadatas := [[]]
        distances := some [2] }
      (by
        intro ds hds d hd
        injection hds with h2
        subst h2
        simp only [List.mem_singleton] at hd
        subst hd
        norm_num)).1
    { id := "a", document := "doc", metadata := [], similarity := some (1 - 2) }
    (List.mem_singleton.mpr rfl) (1 - 2) rfl

/-- The semantic pass of `search_conversations`: semantic results whose id
has a conversation row, turned into summaries carrying the index score. -/
def semanticSummaries (semantic_results : List SimilarityResult)
    (db : String → Bool) : List ConversationSummary :=
  semantic_results.filterMap fun r =>
    if db r.id then some { id := r.id, similarity := r.similarity } else none

theorem mem_semanticSummaries {semantic_results : List SimilarityResult}
    {db : String → Bool} {x : ConversationSummary} :
    x ∈ semanticSummaries semantic_results db ↔
      ∃ r ∈ semantic_results, db r.id = true ∧
        x = { id := r.id, similarity := r.similarity } := by
  unfold semanticSummaries
  rw [List.mem_filterMap]
  constructor
  · rintro ⟨r, hr, hfr⟩
    by_cases hdb : db r.id
    · rw [if_pos hdb] at hfr
      exact ⟨r, hr, hdb, (Option.some.inj hfr).symm⟩
    · rw [if_neg hdb] at hfr
      exact absurd hfr (Option.noConfusion)
  · rintro ⟨r, hr, hdb, hx⟩
    exact ⟨r, hr, by rw [if_pos hdb, hx]⟩

theorem semanticSummaries_id_mem {semantic_results : List SimilarityResult}
    {db : String → Bool} {x : ConversationSummary}
    (hx : x ∈ semanticSummaries semantic_results db) :
    x.id ∈ semantic_results.map SimilarityResult.id := by
  obtain ⟨r, hr, _, hx⟩ := mem_semanticSummaries.mp hx
  rw [hx]
  exact List.mem_map.mpr ⟨r, hr, rfl⟩

theorem semanticSummaries_inj {semantic_results : List SimilarityResult}
    {db : String → Bool}
    (hnodup : (semantic_results.map SimilarityResult.id).Nodup) :
    ∀ x ∈ semanticSummaries semantic_results db,
      ∀ y ∈ semanticSummaries semantic_results db, x.id = y.id → x = y := by
  induction semantic_results with
  | nil => intro x hx; simp [semanticSummaries] at hx
  | cons r rest ih =>
    rw [List.map_cons, List.nodup_cons] at hnodup
    intro x hx y hy hxy
    by_cases hdb : db r.id
    · have hcons : semanticSummaries (r :: rest) db =
          { id := r.id, similarity := r.similarity } ::
            semanticSummaries rest db := by
        unfold semanticSummaries
        rw [List.filterMap_cons, if_pos hdb]
      rw [hcons, List.mem_cons] at hx hy
      rcases hx with hx | hx <;> rcases hy with hy | hy
      · rw [hx, hy]
      · exfalso
        apply hnodup.1
        have : x.id = r.id := by rw [hx]
        rw [← this, hxy]
        exact semanticSummaries_id_mem hy
      · exfalso
        apply hnodup.1
        have : y.id = r.id := by rw [hy]
        rw [← this, ← hxy]
        exact semanticSummaries_id_mem hx
      · exact ih hnodup.2 x hx y hy hxy
    · have hcons : semanticSummaries (r :: rest) db =
          semanticSummaries rest db := by
        unfold semanticSummaries
        rw [List.filterMap_cons, if_neg hdb]
      rw [hcons] at hx hy
      exact ih hnodup.2 x hx y hy hxy

/-- C1 counterexample: in hybrid mode a text-only match does NOT always rank
below every scored semantic match.  With one semantic result for id `a`
scoring `-1` (cosine distance `2`) and one text match `b`, the output ranks
the scoreless text match `b` (implicit key `0`) above the scored semantic
match `a`, refuting the claimed ordering (stated here as: after any
scoreless entry only scoreless entries follow). -/
theorem hybrid_text_rank_counterexample :
    ¬ (search_conversations .hybrid 10
        [{ id := "a", document := "", metadata := [], similarity := some (-1) }]
        (fun _ => true) ["b"]).Pairwise
      (fun x y => x.similarity = none → y.similarity = none) := by
  decide

theorem search_conversations_hybrid_def (limit : Nat)
    (semantic_results : List SimilarityResult) (db : String → Bool)
    (text_matches : List String) :
    search_conversations .hybrid limit semantic_results db text_matches
      = (sortByKeyDesc sortKey
          (semanticSummaries semantic_results db
            ++ ((text_matches.take limit).map fun t =>
                  ({ id := t, similarity := none } : ConversationSummary)).filter
                fun c => decide (c.id ∉
                  (semanticSummaries semantic_results db).map
                    ConversationSummary.id))).take limit := rfl

theorem search_conversations_semantic_def (limit : Nat)
    (semantic_results : List SimilarityResult) (db : String → Bool)
    (text_matches : List String) :
    search_conversations .semantic limit semantic_results db text_matches
      = (sortByKeyDesc sortKey (semanticSummaries semantic_results db)).take
          limit := rfl

/-- C1 (amended): hybrid conversation search returns at most `limit` results;
the merge is by entity id, the semantic score being kept whenever an id
appears in both passes (text-only entries carry no score and an id absent
from the found semantic results); the output is sorted by descending
defaulted similarity, so scoreless entries (implicit key `0`, the text-only
matches among them) rank below every entry with a positive score but may
rank above semantic matches with negative scores; and every id common to the
hybrid and the semantic-only result sets carries the same similarity in
both (assuming, per the index contract, that the semantic pass returns
distinct ids). -/
theorem hybrid_search_merge_spec (limit : Nat)
    (semantic_results : List SimilarityResult) (db : String → Bool)
    (text_matches : List String)
    (hnodup : (semantic_results.map SimilarityResult.id).Nodup) :
    (search_conversations .hybrid limit semantic_results db
        text_matches).length ≤ limit
    ∧ (∀ x ∈ search_conversations .hybrid limit semantic_results db
          text_matches,
        (∃ r ∈ semantic_results, db r.id = true ∧ r.id = x.id ∧
            x.similarity = r.similarity)
        ∨ (x.similarity = none ∧ x.id ∈ text_matches ∧
            ∀ r ∈ semantic_results, db r.id = true → r.id ≠ x.id))
    ∧ (search_conversations .hybrid limit semantic_results db
          text_matches).Pairwise (fun x y => sortKey y ≤ sortKey x)
    ∧ (∀ x ∈ search_conversations .hybrid limit semantic_results db
          text_matches,
        ∀ y ∈ search_conversations .semantic limit semantic_results db
            text_matches,
          x.id = y.id → x.similarity = y.similarity) := by
  have hmem : ∀ (m : List ConversationSummary) (x : ConversationSummary),
      x ∈ (sortByKeyDesc sortKey m).take limit → x ∈ m := fun m x hx =>
    (sortByKeyDesc_perm sortKey m).mem_iff.mp (List.take_subset _ _ hx)
  refine ⟨?_, ?_, ?_, ?_⟩
  · rw [search_conversations_hybrid_def, List.length_take]
    exact min_le_left _ _
  · intro x hx
    rw [search_conversations_hybrid_def] at hx
    rcases List.mem_append.mp (hmem _ x hx) with hx2 | hx2
    · obtain ⟨r, hr, hdb, hxeq⟩ := mem_semanticSummaries.mp hx2
      refine Or.inl ⟨r, hr, hdb, ?_, ?_⟩
      · rw [hxeq]
      · rw [hxeq]
    · obtain ⟨hx3, hp⟩ := List.mem_filter.mp hx2
      obtain ⟨t, ht, hteq⟩ := List.mem_map.mp hx3
      have hnotin : x.id ∉ (semanticSummaries semantic_results db).map
          ConversationSummary.id := of_decide_eq_true hp
      refine Or.inr ⟨by rw [← hteq], ?_, ?_⟩
      · rw [← hteq]
        exact List.take_subset _ _ ht
      · intro r hr hdb heq
        apply hnotin
        rw [← heq]
        exact List.mem_map.mpr
          ⟨{ id := r.id, similarity := r.similarity },
            mem_semanticSummaries.mpr ⟨r, hr, hdb, rfl⟩, rfl⟩
  · rw [search_conversations_hybrid_def]
    exact (sortByKeyDesc_pairwise sortKey _).sublist (List.take_sublist _ _)
  · intro x hx y hy hxy
    rw [search_conversations_hybrid_def] at hx
    rw [search_conversations_semantic_def] at hy
    have hy2 := hmem _ y hy
    rcases List.mem_append.mp (hmem _ x hx) with hx2 | hx2
    · exact congrArg ConversationSummary.similarity
        (semanticSummaries_inj hnodup x hx2 y hy2 hxy)
    · obtain ⟨_, hp⟩ := List.mem_filter.mp hx2
      have : y.id ∈ (semanticSummaries semantic_results db).map
          ConversationSummary.id := List.mem_map.mpr ⟨y, hy2, rfl⟩
      exact absurd (hxy ▸ this) (of_decide_eq_true hp)

theorem hybrid_search_merge_spec_witness :
    (search_conversations .hybrid 10
        [{ id := "a", document := "", metadata := [], similarity := some (-1) }]
        (fun _ => true) ["b"]).length ≤ 10 :=
  (hybrid_search_merge_spec 10
    [{ id := "a", document := "", metadata := [], similarity := some (-1) }]
    (fun _ => true) ["b"] (by decide)).1

theorem search_messages_hybrid_def (limit : Nat)
    (semantic_results : List SimilarityResult) (db : String → Bool)
    (text_matches : List String) :
    search_messages .hybrid limit semantic_results db text_matches
      = (sortByKeyDesc msgSortKey
          ((semantic_results.filterMap fun r =>
              if db r.id then
                some ({ id := r.id, similarity := r.similarity } :
                  MessageWithSimilarity)
              else none)
            ++ ((text_matches.take limit).map fun t =>
                  ({ id := t, similarity := none } :
                    MessageWithSimilarity)).filter
                fun c => decide (c.id ∉
                  ((semantic_results.filterMap fun r =>
                    if db r.id then
                      some ({ id := r.id, similarity := r.similarity } :
                        MessageWithSimilarity)
                    else none)).map MessageWithSimilarity.id))).take limit :=
  rfl

/-- C10: the combined hybrid endpoint searches conversations with limit
`max(5, limit // 2)` and messages with limit `max(5, limit - conversation
count)`, so those are the bounds on the two result lists; and, since both
per-kind limits are floored at `5`, for `limit < 10` the combined total can
exceed `limit` (witnessed at `limit = 1` with five text matches per kind). -/
theorem hybrid_endpoint_limits :
    (∀ limit conv_semantic conv_db conv_text msg_semantic msg_db msg_text,
      (hybrid_search limit conv_semantic conv_db conv_text msg_semantic
          msg_db msg_text).conversations.length ≤ max 5 (limit / 2)
      ∧ (hybrid_search limit conv_semantic conv_db conv_text msg_semantic
            msg_db msg_text).messages.length ≤
          (max 5 ((limit : Int) -
            (hybrid_search limit conv_semantic conv_db conv_text msg_semantic
              msg_db msg_text).conversations.length)).toNat)
    ∧ ∃ limit conv_semantic conv_db conv_text msg_semantic msg_db msg_text,
        limit < 10 ∧
        limit < (hybrid_search limit conv_semantic conv_db conv_text
            msg_semantic msg_db msg_text).conversations.length +
          (hybrid_search limit conv_semantic conv_db conv_text msg_semantic
            msg_db msg_text).messages.length := by
  constructor
  · intro limit conv_semantic conv_db conv_text msg_semantic msg_db msg_text
    constructor
    · show (search_conversations .hybrid (max 5 (limit / 2)) conv_semantic
          conv_db conv_text).length ≤ max 5 (limit / 2)
      rw [search_conversations_hybrid_def, List.length_take]
      exact min_le_left _ _
    · show (search_messages .hybrid _ msg_semantic msg_db msg_text).length ≤ _
      rw [search_messages_hybrid_def, List.length_take]
      exact min_le_left _ _
  · exact ⟨1, [], fun _ => true, ["a", "b", "c", "d", "e"], [],
      fun _ => true, ["p", "q", "r", "s", "t"], by decide, by decide⟩

/-- The cluster rows among a list of session writes, in order. -/
def clusterRowsOf (ws : List DbWrite) : List ClusterRow :=
  ws.filterMap fun w => match w with
    | .cluster c => some c
    | .member _ => none

/-- The member (assignment) rows among a list of session writes, in order. -/
def memberRowsOf (ws : List DbWrite) : List MemberRow :=
  ws.filterMap fun w => match w with
    | .member m => some m
    | .cluster _ => none

theorem clusterRowsOf_members (l : List MemberRow) :
    clusterRowsOf (l.map DbWrite.member) = [] := by
  induction l with
  | nil => rfl
  | cons m rest ih => simp [clusterRowsOf, List.filterMap_cons, ih]

theorem foldl_add_spec (ws : List DbWrite) (db : DbState) :
    ws.foldl DbState.add db =
      { committed := db.committed, staged := db.staged ++ ws
        commit_count := db.commit_count } := by
  induction ws generalizing db with
  | nil => simp
  | cons w ws ih =>
    rw [List.foldl_cons, ih]
    simp [DbState.add]

theorem filterMap_const_none (l : List β) :
    l.filterMap (fun _ => (none : Option γ)) = [] := by
  induction l with
  | nil => rfl
  | cons b rest ih => simp [List.filterMap_cons, ih]

theorem clusterLoop_colors (conversations : List Conversation)
    (labels : List Int) (probabilities : Option (List ℚ))
    (min_cluster_size max_clusters : Nat) :
    ∀ (uls : List Int) (cc cl n : Nat),
      n < (clusterRowsOf (clusterLoop conversations labels probabilities
          min_cluster_size max_clusters uls cc cl).1).length →
      ((clusterRowsOf (clusterLoop conversations labels probabilities
          min_cluster_size max_clusters uls cc cl).1).getD n
        ⟨"", "", true, ""⟩).color = generate_cluster_color (cc + n) := by
  intro uls
  induction uls with
  | nil =>
    intro cc cl n hn
    simp [clusterLoop, clusterRowsOf] at hn
  | cons label rest ih =>
    intro cc cl n hn
    simp only [clusterLoop] at hn ⊢
    by_cases hcap : max_clusters ≤ cc
    · rw [if_pos hcap] at hn
      simp [clusterRowsOf] at hn
    · rw [if_neg hcap] at hn ⊢
      by_cases hsmall : ((cluster_member_indices labels label).map fun i =>
          conversations.getD i ⟨"", none, none, none⟩).length < min_cluster_size
      · rw [if_pos hsmall] at hn ⊢
        exact ih cc cl n hn
      · rw [if_neg hsmall] at hn ⊢
        simp only [clusterRowsOf, List.filterMap_cons, List.filterMap_append,
          List.filterMap_map, Function.comp_def, filterMap_const_none,
          List.nil_append, List.singleton_append, List.length_cons] at hn ⊢
        cases n with
        | zero => simp
        | succ n =>
          rw [List.getD_cons_succ]
          rw [show cc + (n + 1) = (cc + 1) + n from by omega]
          have := ih (cc + 1)
            (cl + ((cluster_member_indices labels label).map fun i =>
              conversations.getD i ⟨"", none, none, none⟩).length) n
          simp only [clusterRowsOf] at this
          exact this (by omega)

/-- C7: within a single auto-clustering run (started on a fresh session), the
Nth auto-generated cluster written to the store carries the palette color at
index `N mod 10` (creation order counted from 0, matching the
`clusters_created` counter the source passes to `_generate_cluster_color`). -/
theorem cluster_color_spec (db : DbState) (conversations : List Conversation)
    (labels : List Int) (probabilities : Option (List ℚ))
    (min_cluster_size max_clusters : Nat)
    (hstaged : db.staged = [])
    (hmin : min_cluster_size ≤ conversations.length) :
    ∀ n,
      n < (clusterRowsOf
          ((perform_auto_clustering db conversations (.ok ()) labels
              probabilities true min_cluster_size max_clusters).2.committed.drop
            db.committed.length)).length →
      ((clusterRowsOf
          ((perform_auto_clustering db conversations (.ok ()) labels
              probabilities true min_cluster_size max_clusters).2.committed.drop
            db.committed.length)).getD n ⟨"", "", true, ""⟩).color
        = clusterColors.getD (n % 10) "" := by
  have hrun : (perform_auto_clustering db conversations (.ok ()) labels
      probabilities true min_cluster_size max_clusters).2.committed
      = db.committed ++ (clusterLoop conversations labels probabilities
          min_cluster_size max_clusters
          (labels.eraseDups.filter fun label => label ≠ -1) 0 0).1 := by
    unfold perform_auto_clustering
    simp [not_lt.mpr hmin, foldl_add_spec, DbState.commit, hstaged]
  intro n hn
  rw [hrun, List.drop_left] at hn ⊢
  have := clusterLoop_colors conversations labels probabilities
    min_cluster_size max_clusters
    (labels.eraseDups.filter fun label => label ≠ -1) 0 0 n hn
  rw [this]
  unfold generate_cluster_color
  rw [show clusterColors.length = 10 from rfl, Nat.zero_add]

theorem cluster_color_spec_witness :
    ((clusterRowsOf
        ((perform_auto_clustering ⟨[], [], 0⟩
            [⟨"c1", none, none, none⟩, ⟨"c2", none, none, none⟩,
              ⟨"c3", none, none, none⟩]
            (.ok ()) [0, 0, 0] (some [1, 1, 1]) true 3 20).2.committed.drop
          0)).getD 0 ⟨"", "", true, ""⟩).color
      = clusterColors.getD (0 % 10) "" :=
  cluster_color_spec ⟨[], [], 0⟩
    [⟨"c1", none, none, none⟩, ⟨"c2", none, none, none⟩,
      ⟨"c3", none, none, none⟩]
    [0, 0, 0] (some [1, 1, 1]) 3 20 rfl (by decide) 0 (by decide)

/-- C8: an auto-clustering run on enough candidates commits exactly once at
its end and leaves nothing staged; a failed similarity-matrix fetch surfaces
that error, and a failed commit surfaces an error, and in both failure cases
every cluster/assignment write of the run is rolled back, leaving the
committed store and the commit count unchanged (all-or-nothing per run). -/
theorem auto_cluster_transaction (db : DbState)
    (conversations : List Conversation) (labels : List Int)
    (probabilities : Option (List ℚ)) (min_cluster_size max_clusters : Nat)
    (e : String)
    (hmin : min_cluster_size ≤ conversations.length) :
    ((perform_auto_clustering db conversations (.ok ()) labels probabilities
          true min_cluster_size max_clusters).2.commit_count
        = db.commit_count + 1
      ∧ (perform_auto_clustering db conversations (.ok ()) labels
          probabilities true min_cluster_size max_clusters).2.staged = [])
    ∧ ((perform_auto_clustering db conversations (.error e) labels
          probabilities true min_cluster_size max_clusters).1 = .error e
      ∧ (perform_auto_clustering db conversations (.error e) labels
          probabilities true min_cluster_size max_clusters).2.committed
          = db.committed
      ∧ (perform_auto_clustering db conversations (.error e) labels
          probabilities true min_cluster_size max_clusters).2.commit_count
          = db.commit_count)
    ∧ ((perform_auto_clustering db conversations (.ok ()) labels probabilities
          false min_cluster_size max_clusters).1 = .error "commit failed"
      ∧ (perform_auto_clustering db conversations (.ok ()) labels
          probabilities false min_cluster_size max_clusters).2.committed
          = db.committed
      ∧ (perform_auto_clustering db conversations (.ok ()) labels
          probabilities false min_cluster_size max_clusters).2.commit_count
          = db.commit_count) := by
  have hnot : ¬ conversations.length < min_cluster_size := not_lt.mpr hmin
  refine ⟨⟨?_, ?_⟩, ⟨?_, ?_, ?_⟩, ⟨?_, ?_, ?_⟩⟩ <;>
    · unfold perform_auto_clustering
      simp [hnot, foldl_add_spec, DbState.commit, DbState.rollback]

theorem auto_cluster_transaction_witness :
    (perform_auto_clustering ⟨[], [], 0⟩
        [⟨"c1", none, none, none⟩, ⟨"c2", none, none, none⟩,
          ⟨"c3", none, none, none⟩]
        (.ok ()) [0, 0, 0] (some [1, 1, 1]) true 3 20).2.commit_count = 0 + 1 :=
  (auto_cluster_transaction ⟨[], [], 0⟩
    [⟨"c1", none, none, none⟩, ⟨"c2", none, none, none⟩,
      ⟨"c3", none, none, none⟩]
    [0, 0, 0] (some [1, 1, 1]) 3 20 "matrix fetch failed" (by decide)).1.1

/-- C3: evaluation of the run at the failing input.  Three conversations all
carry HDBSCAN label `0` with per-point probabilities `[1, 0, 0]`; the source
stores `probabilities_[cluster_conv_indices[0]]` — the FIRST member's
probability — as the confidence of EVERY member, so `c1` and `c2` receive
confidence `1` although their own per-point probabilities are `0`. -/
theorem cluster_confidence_first_member_eval :
    memberRowsOf
        (perform_auto_clustering ⟨[], [], 0⟩
          [⟨"c0", none, none, none⟩, ⟨"c1", none, none, none⟩,
            ⟨"c2", none, none, none⟩]
          (.ok ()) [0, 0, 0] (some [1, 0, 0]) true 3 20).2.committed
      = [⟨"c0", 0, 1⟩, ⟨"c1", 0, 1⟩, ⟨"c2", 0, 1⟩]
    ∧ (1 : ℚ) ≠ 0 := by
  constructor
  · decide
  · norm_num

/-- The cluster display name as described by the (amended) specification:
the first up-to-3 vocabulary keywords matching the lowercased member
titles/summaries, comma-joined and title-cased; when none match and at least
one member has a project path, the last up-to-two segments of the first such
path occurring as substrings in every member path, slash-joined, when at
least two such segments exist, else the literal `"Project Discussions"`;
and `"Mixed Topics"` exactly when no member has a project path. -/
def specClusterName (conversations : List Conversation) : String :=
  let matched := clusterKeywords.filter fun kw =>
    strContains (pyLower (String.intercalate " "
      (conversations.filterMap Conversation.title
        ++ conversations.filterMap Conversation.summary))) kw
  if matched ≠ [] then pyTitle (String.intercalate ", " (matched.take 3))
  else
    match conversations.filterMap Conversation.project_path with
    | [] => "Mixed Topics"
    | p0 :: rest =>
      let shared := (splitSlash p0.data).filter fun seg =>
        (p0 :: rest).all fun proj => charsContain seg proj.data
      if 2 ≤ shared.length then
        String.mk (List.intercalate ['/'] (shared.drop (shared.length - 2)))
      else "Project Discussions"

/-- C4 (amended): cluster name generation never fails — it always produces a
value — and the produced name is exactly the one the amended wording
describes (keywords first, then the shared-segment fallback with
`"Project Discussions"` when fewer than two segments are shared, and
`"Mixed Topics"` only when no member has a project path). -/
theorem cluster_name_spec (conversations : List Conversation) :
    (generate_cluster_info conversations).map Prod.fst
      = some (specClusterName conversations) := by
  simp only [generate_cluster_info, specClusterName]
  cases hproj : conversations.filterMap Conversation.project_path with
  | nil =>
    by_cases hf : (clusterKeywords.filter fun kw =>
        strContains (pyLower (String.intercalate " "
          (conversations.filterMap Conversation.title
            ++ conversations.filterMap Conversation.summary))) kw) = []
    · simp [hf]
    · simp [hf]
  | cons p0 rest =>
    by_cases hf : (clusterKeywords.filter fun kw =>
        strContains (pyLower (String.intercalate " "
          (conversations.filterMap Conversation.title
            ++ conversations.filterMap Conversation.summary))) kw) = []
    · simp [hf]
    · simp [hf]

/-- C4 counterexample: with no keyword match and project paths `a/b`, `x/y`
sharing no segment, the generated name is the literal
`"Project Discussions"`, not the claimed `"Mixed Topics"` (which the source
reserves for clusters whose members have no project path at all). -/
theorem cluster_name_fallback_counterexample :
    (generate_cluster_info
        [⟨"c1", some "zzz", none, some "a/b"⟩,
          ⟨"c2", none, none, some "x/y"⟩]).map Prod.fst
      = some "Project Discussions"
    ∧ ("Project Discussions" : String) ≠ "Mixed Topics" := by
  constructor
  · decide
  · decide
